import Mathlib

/-
Verification of the streaming/buffering core of vosk_recognition.py: the
MicrophoneStream queue (queue.Queue of byte chunks with a None sentinel),
the coalescing generator that drains it, and the console loop in main.

Modelling conventions:
  - A byte chunk is a List Nat; the None sentinel is a distinguished
    constructor QItem.eos.
  - queue.Queue is a FIFO list: put appends at the tail, get removes the
    head; get(block=False) on an empty queue (queue.Empty) is modelled by
    tryGet returning none.
  - One outer iteration of MicrophoneStream.generator interacts with the
    queue through one blocking get followed by non-blocking gets until
    queue.Empty.  The items the queue delivers during one such round form
    a batch (a List QItem); a whole run of the generator is driven by a
    schedule, the list of batches delivered at successive rounds.  A run
    whose schedule is exhausted corresponds to the generator blocking in
    buff.get with no further pushes arriving.
-/

namespace VoskRecognition

/-- An element travelling through MicrophoneStream.buff: either a byte
chunk pushed by the device callback, or the None end-of-stream sentinel
tested by the generator (lines 53 and 61 of the source). -/
inductive QItem where
  | chunk (b : List Nat)
  | eos
deriving DecidableEq

/-- queue.Queue.put: append the element at the tail (FIFO). -/
def put (q : List QItem) (x : QItem) : List QItem := q ++ [x]

/-- queue.Queue.get() with block=True: remove and return the head; on an
empty queue the caller suspends, modelled as none (no value is ever
produced within the modelled run). -/
def getBlocking : List QItem → Option (QItem × List QItem)
  | [] => none
  | x :: q => some (x, q)

/-- queue.Queue.get(block=False): remove and return the head if present,
otherwise raise queue.Empty immediately, modelled as none. -/
def tryGet : List QItem → Option (QItem × List QItem)
  | [] => none
  | x :: q => some (x, q)

/-- The n first blocking pops of a queue: the list of items returned and
the remaining queue.  Pops past the end of the queue return nothing. -/
def pops : Nat → List QItem → List QItem × List QItem
  | 0, q => ([], q)
  | n + 1, q =>
    match getBlocking q with
    | none => ([], q)
    | some (x, q2) =>
      let r := pops n q2
      (x :: r.1, r.2)

namespace MicrophoneStream

/-- MicrophoneStream.callback (line 46): the only queue write in the
source, self.buff.put(bytes(indata)).  It always enqueues a chunk, never
the None sentinel. -/
def callback (q : List QItem) (indata : List Nat) : List QItem :=
  put q (QItem.chunk indata)

/-- The inner non-blocking drain loop of MicrophoneStream.generator
(lines 58-65) applied to the items the queue still delivers this round:
append chunks to the accumulated data list until queue.Empty (flag false,
the loop breaks and the round yields) or the None sentinel (flag true,
the generator returns at line 62 without yielding). -/
def drain : List QItem → List (List Nat) → List (List Nat) × Bool
  | [], data => (data, false)
  | QItem.eos :: _, data => (data, true)
  | QItem.chunk b :: rest, data => drain rest (data ++ [b])

/-- The sequence of buffers yielded by MicrophoneStream.generator
(lines 48-68) when the queue delivers the given batches at successive
outer rounds.  Each round: a blocking get (head of the batch); None ends
the run (line 54); otherwise the inner drain runs, and either the None
sentinel ends the run without a yield (line 62) or the accumulated chunks
are joined and yielded (line 68). -/
def generatorRun : List (List QItem) → List (List Nat)
  | [] => []
  | [] :: _ => []
  | (QItem.eos :: _) :: _ => []
  | (QItem.chunk b :: tail) :: rest =>
    let r := drain tail [b]
    if r.2 then [] else r.1.flatten :: generatorRun rest

end MicrophoneStream

/-- Queue operations performed by the exit of the with-block in
get_asr_result (lines 79-87): the sounddevice stream context manager
stops and closes the device; the source performs no queue operation on
any exit path of the block, in particular it never puts the None
sentinel. -/
def getAsrResultClosePuts : List QItem := []

/-- A Python value held by recog_result in main: None (get_asr_result
returning without a result) or a recognized-text string. -/
inductive PyVal where
  | none
  | str (s : String)
deriving DecidableEq

/-- The stop phrase compared against recog_result at line 125. -/
def stopPhrase : String := "終わり"

/-- The outcome of one call of get_asr_result inside the try of main:
either a value, or one of the three caught speech_recognition errors. -/
inductive Outcome where
  | ok (v : PyVal)
  | raised
deriving DecidableEq

/-- How one iteration of the while-loop in main ends: continue to the
next iteration with recog_result bound to the given value, break out of
the loop (stop phrase recognized), or crash the process
(UnboundLocalError: recog_result referenced before assignment). -/
inductive StepResult where
  | cont (bound : PyVal)
  | brk
  | crash
deriving DecidableEq

/-- One iteration of the while-loop in main (lines 111-127): run
get_asr_result under the try; a caught error leaves recog_result at its
previous binding (unbound on the first iteration); then line 124 prints
recog_result (crashing if it is unbound) and line 125 breaks when it
equals the stop phrase.  Returns the value printed at line 124 (none if
the print crashed) and how the iteration ended. -/
def mainStep (bound : Option PyVal) (o : Outcome) : Option PyVal × StepResult :=
  match o with
  | Outcome.ok v =>
      (some v, if v = PyVal.str stopPhrase then StepResult.brk else StepResult.cont v)
  | Outcome.raised =>
      match bound with
      | Option.none => (Option.none, StepResult.crash)
      | Option.some v =>
          (some v, if v = PyVal.str stopPhrase then StepResult.brk else StepResult.cont v)

/-- Total bytes delivered to a schedule's queue as chunks (the bytes of
every chunk item, in order; the sentinel carries no bytes). -/
def chunkBytes : QItem → List Nat
  | QItem.chunk b => b
  | QItem.eos => []

/-- Concatenation of the bytes of all chunks pushed across a schedule. -/
def pushedBytes (sched : List (List QItem)) : List Nat :=
  (sched.flatten.map chunkBytes).flatten

/-- Folding put over a list of elements appends them in order: the queue
is strict FIFO. -/
theorem foldl_put (q : List QItem) (xs : List QItem) :
    List.foldl put q xs = q ++ xs := by
  induction xs generalizing q with
  | nil => simp
  | cons x xs ih => simp [put, ih]

/-- Popping a queue as many times as it has elements returns exactly its
elements in order. -/
theorem pops_all (q : List QItem) : (pops q.length q).1 = q := by
  induction q with
  | nil => simp [pops]
  | cons x q ih => simp [pops, getBlocking, ih]

/-- The drain loop over chunk-only input appends all chunks to the
accumulation and reports no sentinel. -/
theorem drain_chunks (cs : List (List Nat)) (data : List (List Nat)) :
    MicrophoneStream.drain (cs.map QItem.chunk) data = (data ++ cs, false) := by
  induction cs generalizing data with
  | nil => simp [MicrophoneStream.drain]
  | cons c cs ih => simp [MicrophoneStream.drain, ih]

/-- If the drain loop meets the None sentinel anywhere in its input, it
reports the sentinel. -/
theorem drain_eos_of_mem (tail : List QItem) (data : List (List Nat))
    (h : QItem.eos ∈ tail) :
    (MicrophoneStream.drain tail data).2 = true := by
  induction tail generalizing data with
  | nil => simp at h
  | cons x tail ih =>
    cases x with
    | eos => simp [MicrophoneStream.drain]
    | chunk b =>
      simp only [List.mem_cons] at h
      rcases h with h | h
      · simp at h
      · simpa [MicrophoneStream.drain] using ih (data ++ [b]) h

/-- If the drain loop reports no sentinel, its input was chunk-only and
the accumulation grew by exactly those chunks in order. -/
theorem drain_false_chunks (tail : List QItem) (data : List (List Nat))
    (h : (MicrophoneStream.drain tail data).2 = false) :
    ∃ cs : List (List Nat), tail = cs.map QItem.chunk
      ∧ (MicrophoneStream.drain tail data).1 = data ++ cs := by
  induction tail generalizing data with
  | nil => exact ⟨[], rfl, by simp [MicrophoneStream.drain]⟩
  | cons x tail ih =>
    cases x with
    | eos => simp [MicrophoneStream.drain] at h
    | chunk b =>
      have h2 : (MicrophoneStream.drain tail (data ++ [b])).2 = false := by
        simpa [MicrophoneStream.drain] using h
      obtain ⟨cs, rfl, hfst⟩ := ih (data ++ [b]) h2
      refine ⟨b :: cs, by simp, ?_⟩
      simp [MicrophoneStream.drain, hfst]

/-- A round whose batch is a chunk followed by further chunks yields
their concatenation and proceeds to the next round. -/
theorem generatorRun_cons_yield (b : List Nat) (cs : List (List Nat))
    (rest : List (List QItem)) :
    MicrophoneStream.generatorRun ((QItem.chunk b :: cs.map QItem.chunk) :: rest)
      = (b :: cs).flatten :: MicrophoneStream.generatorRun rest := by
  simp [MicrophoneStream.generatorRun, drain_chunks]

/-- The callback never enqueues the None sentinel: a queue without the
sentinel still lacks it after any sequence of callback pushes. -/
theorem callback_no_eos (inputs : List (List Nat)) (q : List QItem)
    (h : QItem.eos ∉ q) :
    QItem.eos ∉ List.foldl MicrophoneStream.callback q inputs := by
  induction inputs generalizing q with
  | nil => simpa using h
  | cons b inputs ih =>
    exact ih (put q (QItem.chunk b)) (by simp [put, h])

/-- The mapped chunk constructor is undone by chunkBytes. -/
theorem chunkBytes_map_chunk (cs : List (List Nat)) :
    (cs.map QItem.chunk).map chunkBytes = cs := by
  induction cs with
  | nil => rfl
  | cons c cs ih => simp [chunkBytes, ih]

/-- Claim C1, counterexample: with chunk [1] and then the None sentinel
both in the queue at the pull, the drain meets the sentinel while the
accumulation already holds [1], yet the generator yields nothing — the
run is empty, not the claimed single-buffer run [[1]]. -/
theorem gen_eos_drop_cex :
    MicrophoneStream.drain [QItem.eos] ([[1]] : List (List Nat)) = ([[1]], true)
  ∧ MicrophoneStream.generatorRun [[QItem.chunk [1], QItem.eos]] = []
  ∧ ([] : List (List Nat)) ≠ [[1]] := by decide

/-- Claim C1, amended: whenever the non-blocking drain pops the None
sentinel, the generator terminates immediately without yielding — the
current accumulation is discarded, and the round contributes nothing to
the run. -/
theorem gen_discards_on_drain_eos (b : List Nat) (tail : List QItem)
    (rest : List (List QItem))
    (h : (MicrophoneStream.drain tail [b]).2 = true) :
    MicrophoneStream.generatorRun ((QItem.chunk b :: tail) :: rest) = [] := by
  simp [MicrophoneStream.generatorRun, h]

/-- Witness for gen_discards_on_drain_eos at b = [1], tail = [eos]. -/
theorem gen_discards_on_drain_eos_witness :
    (MicrophoneStream.drain [QItem.eos] ([[1]] : List (List Nat))).2 = true
  ∧ MicrophoneStream.generatorRun [[QItem.chunk [1], QItem.eos]] = [] :=
  ⟨by decide, gen_discards_on_drain_eos [1] [QItem.eos] [] (by decide)⟩

/-- Claim C2: no exit path of the with-block in get_asr_result puts the
None sentinel into the queue — the close performs no queue operation at
all, and every put the source ever makes (the callback) enqueues a
chunk, so the sentinel is never in the queue. -/
theorem close_pushes_no_eos (inputs : List (List Nat)) :
    getAsrResultClosePuts = []
  ∧ QItem.eos ∉ List.foldl MicrophoneStream.callback [] inputs :=
  ⟨rfl, callback_no_eos inputs [] (by simp)⟩

/-- Claim C3, counterexample: pushing chunk [1] and then the sentinel,
all before the first pull, pushes one byte in total but the run yields
zero bytes — the total yielded byte count is not invariant under
coalescing granularity. -/
theorem gen_total_bytes_cex :
    pushedBytes [[QItem.chunk [1], QItem.eos]] = [1]
  ∧ (MicrophoneStream.generatorRun [[QItem.chunk [1], QItem.eos]]).flatten = []
  ∧ ([1] : List Nat) ≠ [] := by decide

/-- Claim C3, amended: when the None sentinel is dequeued by the outer
blocking pop — every earlier batch consists of chunks alone and the
sentinel arrives in a batch of its own — the concatenation of all
yielded buffers equals the concatenation of all pushed chunks. -/
theorem gen_total_bytes (bs : List (List (List Nat)))
    (h : ∀ cs ∈ bs, cs ≠ []) :
    (MicrophoneStream.generatorRun
        (bs.map (fun cs => cs.map QItem.chunk) ++ [[QItem.eos]])).flatten
      = pushedBytes (bs.map (fun cs => cs.map QItem.chunk) ++ [[QItem.eos]]) := by
  induction bs with
  | nil => simp [MicrophoneStream.generatorRun, pushedBytes, chunkBytes]
  | cons cs bs ih =>
    have hcs : cs ≠ [] := h cs (by simp)
    have hrest : ∀ x ∈ bs, x ≠ [] := fun x hx => h x (by simp [hx])
    obtain ⟨c, cst, rfl⟩ := List.exists_cons_of_ne_nil hcs
    have hyield := generatorRun_cons_yield c cst
      (bs.map (fun cs => cs.map QItem.chunk) ++ [[QItem.eos]])
    simp only [List.map_cons, List.cons_append] at hyield ⊢
    rw [hyield]
    simp [pushedBytes, chunkBytes, chunkBytes_map_chunk, ih hrest,
      List.flatten_append, List.map_append, Function.comp_def]

/-- Witness for gen_total_bytes with batches [[1],[2]] then [[3]]. -/
theorem gen_total_bytes_witness :
    (MicrophoneStream.generatorRun
        (([[[1], [2]], [[3]]] : List (List (List Nat))).map
            (fun cs => cs.map QItem.chunk) ++ [[QItem.eos]])).flatten
      = pushedBytes (([[[1], [2]], [[3]]] : List (List (List Nat))).map
            (fun cs => cs.map QItem.chunk) ++ [[QItem.eos]]) :=
  gen_total_bytes [[[1], [2]], [[3]]] (by decide)

/-- Claim C4: a recognition error caught on the first loop iteration of
main leaves recog_result unbound, and the unconditional print of
recog_result then crashes the process (UnboundLocalError) instead of
continuing to the next utterance. -/
theorem main_first_error_crashes :
    mainStep Option.none Outcome.raised = (Option.none, StepResult.crash) := rfl

/-- Claim C5: pushing chunks P1..Pn and then the None sentinel builds
the queue P1..Pn, sentinel, and n + 1 successive blocking pops return
exactly P1..Pn in push order followed by the sentinel. -/
theorem fifo_pops (P : List (List Nat)) :
    List.foldl put [] (P.map QItem.chunk ++ [QItem.eos])
        = P.map QItem.chunk ++ [QItem.eos]
  ∧ (pops (P.length + 1) (P.map QItem.chunk ++ [QItem.eos])).1
        = P.map QItem.chunk ++ [QItem.eos] := by
  constructor
  · simpa using foldl_put [] (P.map QItem.chunk ++ [QItem.eos])
  · simpa using pops_all (P.map QItem.chunk ++ [QItem.eos])

/-- Claim C6: with chunks b1 and b2 both in the queue before the first
pull, the generator yields the single merged buffer b1 ++ b2. -/
theorem gen_coalesce (b1 b2 : List Nat) :
    MicrophoneStream.generatorRun [[QItem.chunk b1, QItem.chunk b2]]
      = [b1 ++ b2] := by
  simp [MicrophoneStream.generatorRun, MicrophoneStream.drain]

/-- Claim C7: when b1 is pushed and fully consumed by one pull before b2
is pushed, the generator yields two separate buffers b1 then b2. -/
theorem gen_two_pulls (b1 b2 : List Nat) :
    MicrophoneStream.generatorRun [[QItem.chunk b1], [QItem.chunk b2]]
      = [b1, b2] := by
  simp [MicrophoneStream.generatorRun, MicrophoneStream.drain]

/-- Claim C8: the non-blocking pop returns the empty indicator exactly
on the empty queue, immediately and for every such state; any push makes
the queue non-empty, so interleaved pushes cannot make a non-empty queue
report empty. -/
theorem tryGet_empty_iff (q : List QItem) : tryGet q = none ↔ q = [] := by
  cases q <;> simp [tryGet]

/-- Witness for tryGet_empty_iff at the empty queue. -/
theorem tryGet_empty_iff_witness : tryGet ([] : List QItem) = none :=
  (tryGet_empty_iff []).mpr rfl

/-- Claim C9: an iteration of the console loop in main whose capture
session recognizes text s prints s and breaks out of the loop exactly
when s is the stop phrase, continuing to the next utterance with s bound
otherwise. -/
theorem main_console_loop (prev : Option PyVal) (s : String) :
    mainStep prev (Outcome.ok (PyVal.str s))
      = (some (PyVal.str s),
          if s = stopPhrase then StepResult.brk
          else StepResult.cont (PyVal.str s)) := by
  by_cases h : s = stopPhrase <;> simp [mainStep, h]

/-- Claim C10: every buffer the generator yields is the flattening of a
non-empty list of dequeued chunks in dequeue order (one whole batch);
and once a batch contains the None sentinel the run is already over
there, so batches delivered afterwards contribute nothing. -/
theorem generator_yield_invariant (sched : List (List QItem)) :
    (∀ y ∈ MicrophoneStream.generatorRun sched, ∃ ds : List (List Nat),
        ds ≠ [] ∧ ds.map QItem.chunk ∈ sched ∧ y = ds.flatten)
  ∧ (∀ (pre : List (List QItem)) (batch : List QItem)
        (r1 r2 : List (List QItem)), QItem.eos ∈ batch →
      MicrophoneStream.generatorRun (pre ++ batch :: r1)
        = MicrophoneStream.generatorRun (pre ++ batch :: r2)) := by
  constructor
  · induction sched with
    | nil => intro y hy; simp [MicrophoneStream.generatorRun] at hy
    | cons batch rest ih =>
      intro y hy
      rcases batch with _ | ⟨x, t⟩
      · simp [MicrophoneStream.generatorRun] at hy
      · rcases x with b | _
        · cases hflag : (MicrophoneStream.drain t [b]).2 with
          | true => simp [MicrophoneStream.generatorRun, hflag] at hy
          | false =>
            obtain ⟨cs, rfl, hfst⟩ := drain_false_chunks t [b] hflag
            rw [generatorRun_cons_yield] at hy
            rcases List.mem_cons.mp hy with hy | hy
            · exact ⟨b :: cs, by simp, by simp, hy⟩
            · obtain ⟨ds, hne, hmem, hflat⟩ := ih y hy
              exact ⟨ds, hne, by simp [hmem], hflat⟩
        · simp [MicrophoneStream.generatorRun] at hy
  · intro pre batch r1 r2 hmem
    induction pre with
    | nil =>
      rcases batch with _ | ⟨x, t⟩
      · simp at hmem
      · rcases x with b | _
        · have ht : QItem.eos ∈ t := by
            rcases List.mem_cons.mp hmem with h | h
            · simp at h
            · exact h
          have hflag := drain_eos_of_mem t [b] ht
          simp [MicrophoneStream.generatorRun, hflag]
        · simp [MicrophoneStream.generatorRun]
    | cons p pre ih =>
      rcases p with _ | ⟨x, t⟩
      · simp [MicrophoneStream.generatorRun]
      · rcases x with b | _
        · cases hflag : (MicrophoneStream.drain t [b]).2 with
          | true => simp [MicrophoneStream.generatorRun, hflag]
          | false => simp [MicrophoneStream.generatorRun, hflag, ih]
        · simp [MicrophoneStream.generatorRun]

/-- Witness for generator_yield_invariant: the buffer [7] yielded from
the schedule [[chunk [7]]] decomposes as required, and a batch holding
the sentinel makes later batches irrelevant. -/
theorem generator_yield_invariant_witness :
    (∃ ds : List (List Nat), ds ≠ []
        ∧ ds.map QItem.chunk ∈ [[QItem.chunk [7]]] ∧ [7] = ds.flatten)
  ∧ MicrophoneStream.generatorRun ([] ++ [QItem.eos] :: [[QItem.chunk [9]]])
      = MicrophoneStream.generatorRun ([] ++ [QItem.eos] :: []) := by
  constructor
  · exact (generator_yield_invariant [[QItem.chunk [7]]]).1 [7] (by decide)
  · exact (generator_yield_invariant []).2 [] [QItem.eos]
      [[QItem.chunk [9]]] [] (by decide)

end VoskRecognition
